import Mathlib

/-!
Verification development for the gohfinder hostname-discovery tool.

The Go source (src/main.go) is shallowly embedded here:

* Go's `map[string]map[string]struct{}` (the HostnameIndex: hostname to a
  set of IP strings) is embedded as an association list
  `List (String × List String)`; the inner list is kept duplicate-free by
  the insertion operation `addVal`, exactly as the Go code inserts into an
  inner set.  An association list fixes one iteration order of the Go map
  (Go map order is unspecified); the theorems below quantify over arbitrary
  lists, hence over every possible iteration order.
* The network and the HTML library are external collaborators; they are
  embedded as an environment `Env` of functions: `fetch` returns either a
  transport error or a status code plus body, `parseCidrDoc`/`parseAsnDoc`
  return the results of the fixed goquery selector queries used by the
  source (`none` models an HTML parse failure), and `compile` models
  `regexp.Compile` (`none` models a compile failure, `some m` the compiled
  matcher).
* Go standard-library string helpers used by the source are embedded as
  character-list programs (`splitComma` for `strings.Split` with a one-char
  separator, `replCh` for `strings.Replace` with one-char old/new,
  `trimStr` for `strings.TrimSpace`, `strJoin` for `strings.Join`), so that
  every definition evaluates by kernel reduction.
-/

inductive FetchOutcome where
  | transportError : FetchOutcome
  | response : Nat → String → FetchOutcome

structure Env where
  fetch : String → FetchOutcome
  parseCidrDoc : String → Option (List (String × String))
  parseAsnDoc : String → Option (List String)
  compile : String → Option (String → Bool)

/-- Split a character list at every occurrence of `sep`; embeds
`strings.Split` for a one-character separator (`strings.Split("", sep)`
is `[""]`, matched by the `[[]]` base case). -/
def splitCh (sep : Char) : List Char → List (List Char)
  | [] => [[]]
  | c :: rest =>
    if c = sep then [] :: splitCh sep rest
    else (splitCh sep rest).modifyHead (fun l => c :: l)

/-- Embeds `strings.Split(s, ",")` as used on the `--cidr`/`--asn` flag values. -/
def splitComma (s : String) : List String :=
  (splitCh ',' s.data).map String.mk

/-- Embeds `strings.Replace(s, old, new, -1)` for one-character old/new, as used
to turn `/` into `-` in the robtex URL. -/
def replCh (a b : Char) (l : List Char) : List Char :=
  l.map (fun c => if c = a then b else c)

/-- Embeds `strings.TrimSpace`. -/
def trimStr (s : String) : String :=
  String.mk (((s.data.dropWhile Char.isWhitespace).reverse.dropWhile Char.isWhitespace).reverse)

/-- Embeds `strings.Join(l, sep)`. -/
def strJoin (sep : String) : List String → String
  | [] => ""
  | [s] => s
  | s :: rest => s ++ sep ++ strJoin sep rest

/-- Embeds `strings.Replace(s, pre, "", 1)` for the selector-returned hrefs: the
selectors `a[href^=...]` guarantee the pattern occurs at the start (or, for
the `AttrOr` default `""`, not at all), where removing the first occurrence
is stripping the leading pattern. -/
def stripFirst (pre s : String) : String :=
  if pre.data.isPrefixOf s.data then String.mk (s.data.drop pre.data.length) else s

/-- The Go statements `if _, exists := m[k]; !exists { m[k] = make(...) };
m[k][v] = struct{}{}` on a `map[string]map[string]struct{}`, embedded on the
association list: add `v` to the set held at key `k`, creating the entry if
absent. -/
def addVal : List (String × List String) → String → String → List (String × List String)
  | [], k, v => [(k, [v])]
  | (k', ips) :: rest, k, v =>
    if k' = k then (k', if v ∈ ips then ips else ips ++ [v]) :: rest
    else (k', ips) :: addVal rest k v

/-- Read the set stored at key `k` (absent key reads as the empty set, as a
`range` over a missing Go map key yields nothing). -/
def lookupIPs : List (String × List String) → String → List String
  | [], _ => []
  | (k', ips) :: rest, k => if k' = k then ips else lookupIPs rest k

/-- All values of the map: every element of every inner set. -/
def vals (m : List (String × List String)) : List String :=
  m.flatMap (fun kv => kv.2)

/-- The body of the merge loop in `main`'s Action: for every key of the
partial result `res`, union its IPs into the accumulator. -/
def mergeRes (acc : List (String × List String)) (res : List (String × List String)) :
    List (String × List String) :=
  res.foldl (fun a kv => kv.2.foldl (fun a2 ip => addVal a2 kv.1 ip) a) acc

/-- The whole merge loop: fold the partial indexes into an initially empty
accumulator (Go: `results := make(map[string]map[string]struct{})`). -/
def mergeAll (parts : List (List (String × List String))) : List (String × List String) :=
  parts.foldl mergeRes []

def robtexBase : String := "https://www.robtex.com/cidr/"

def dnsBase : String := "https://www.robtex.com/dns-lookup/"

def ipBase : String := "https://www.robtex.com/ip-lookup/"

def bgpBase : String := "https://bgp.he.net/"

/-- The URL `searchCIDR` fetches: base plus the CIDR with `/` turned into `-`. -/
def cidrURL (cidr : String) : String :=
  robtexBase ++ String.mk (replCh '/' '-' cidr.data)

/-- Model of `searchCIDR`: returns the list of fetched URLs (always exactly one)
paired with the hostname index scraped from the page.  Transport errors,
non-200 statuses and HTML parse errors all return the empty index, exactly
as the Go function returns `nil` on those paths.  Each selector-matched
anchor contributes its href with the dns-lookup base stripped as hostname,
and the sibling ip-lookup href (or `""` when `AttrOr` defaulted) with the
ip-lookup base stripped as IP. -/
def searchCIDR (env : Env) (cidr : String) : List String × List (String × List String) :=
  let url := cidrURL cidr
  let idx :=
    match env.fetch url with
    | FetchOutcome.transportError => []
    | FetchOutcome.response code body =>
      if code = 200 then
        match env.parseCidrDoc body with
        | none => []
        | some anchors =>
          anchors.foldl
            (fun acc a => addVal acc (stripFirst dnsBase a.1) (stripFirst ipBase a.2)) []
      else []
  ([url], idx)

/-- True when the `searchCIDR` fetch for this CIDR fails: transport error,
non-200 status, or HTML parse error. -/
def cidrFetchFails (env : Env) (cidr : String) : Bool :=
  match env.fetch (cidrURL cidr) with
  | FetchOutcome.transportError => true
  | FetchOutcome.response code body =>
    if code = 200 then (env.parseCidrDoc body).isNone else true

structure AsnState where
  fetched : List String
  printed : List String
  ranges : List String

/-- One iteration of the loop in `searchASN`: fetch `bgp.he.net/<asn>`;
on transport error, non-200 status or parse error `continue`; otherwise
append the trimmed non-empty first-cell link texts of the prefix table to
`ranges`, then print the whole of `ranges` (the source prints every entry
of the accumulated slice after each ASN, not only the new ones). -/
def asnStep (env : Env) (st : AsnState) (asn : String) : AsnState :=
  let url := bgpBase ++ asn
  match env.fetch url with
  | FetchOutcome.transportError => ⟨st.fetched ++ [url], st.printed, st.ranges⟩
  | FetchOutcome.response code body =>
    if code = 200 then
      match env.parseAsnDoc body with
      | none => ⟨st.fetched ++ [url], st.printed, st.ranges⟩
      | some rows =>
        let newRanges := st.ranges ++ (rows.map trimStr).filter (fun s => !(s == ""))
        ⟨st.fetched ++ [url], st.printed ++ newRanges, newRanges⟩
    else ⟨st.fetched ++ [url], st.printed, st.ranges⟩

/-- The `searchASN` loop over an already-split list of ASN identifiers. -/
def searchASNList (env : Env) (l : List String) : AsnState :=
  l.foldl (asnStep env) ⟨[], [], []⟩

/-- Model of `searchASN`: split on commas and run the loop.  `fetched` records the
requested URLs, `printed` the progress lines written to standard output,
`ranges` the returned prefix list. -/
def searchASN (env : Env) (asns : String) : AsnState :=
  searchASNList env (splitComma asns)

/-- True when the ASN's page is fetched with status 200 and parses. -/
def asnSucceeds (env : Env) (asn : String) : Bool :=
  match env.fetch (bgpBase ++ asn) with
  | FetchOutcome.transportError => false
  | FetchOutcome.response code body =>
    if code = 200 then (env.parseAsnDoc body).isSome else false

/-- The prefixes one ASN contributes: the trimmed non-empty first-cell link
texts of its prefix table, or nothing when its lookup fails. -/
def asnPrefixes (env : Env) (asn : String) : List String :=
  match env.fetch (bgpBase ++ asn) with
  | FetchOutcome.transportError => []
  | FetchOutcome.response code body =>
    if code = 200 then
      match env.parseAsnDoc body with
      | none => []
      | some rows => (rows.map trimStr).filter (fun s => !(s == ""))
    else []

/-- What `searchASN` actually prints: after each successful ASN, the whole
prefix list accumulated so far (`acc` is the accumulation before the items
still to process). -/
def tracePrints (env : Env) (acc : List String) : List String → List String
  | [] => []
  | a :: rest =>
    if asnSucceeds env a then
      (acc ++ asnPrefixes env a) ++ tracePrints env (acc ++ asnPrefixes env a) rest
    else tracePrints env acc rest

/-- The filtered entries of the index: the hostnames passing the
`filter == "" || re.MatchString(hostname)` check, with their IP sets
(`p` is that check as a predicate). -/
def keptEntries (results : List (String × List String)) (p : String → Bool) :
    List (String × List String) :=
  results.filter (fun kv => p kv.1)

/-- The `hostsResult` map of the hosts-mode branch of `printResults`: for
every kept hostname, for each of its IPs, add the hostname to the set at
key ip. -/
def hostsIndex (results : List (String × List String)) (p : String → Bool) :
    List (String × List String) :=
  results.foldl
    (fun acc kv =>
      if p kv.1 then kv.2.foldl (fun a ip => addVal a ip kv.1) acc else acc) []

/-- The lines `printResults` prints once the filter predicate `p` is fixed:
hosts mode prints `"<ip> <space-joined hostnames>"` per inverted entry,
fqdn mode the bare hostname, default mode `"<hostname>: <space-joined ips>"`. -/
def renderWith (results : List (String × List String)) (hostsFlag fqdnFlag : Bool)
    (p : String → Bool) : List String :=
  if hostsFlag then
    (hostsIndex results p).map (fun e => e.1 ++ " " ++ strJoin (" ") e.2)
  else
    (keptEntries results p).map
      (fun kv => if fqdnFlag then kv.1 else kv.1 ++ ": " ++ strJoin (" ") kv.2)

/-- The hostnames that occur (as hostnames) in the rendered output: in hosts
mode the hostname lists of the inverted entries, otherwise the kept keys.
(The printed hostname field is identical for fqdn and default mode.) -/
def outputHostnames (results : List (String × List String)) (hostsFlag fqdnFlag : Bool)
    (p : String → Bool) : List String :=
  if hostsFlag then vals (hostsIndex results p)
  else (keptEntries results p).map Prod.fst

/-- Model of `printResults`: compile the filter first when one is supplied;
`Except.error` models `log.Fatalf` terminating the process before any line
is printed (the Go message carries the library's error detail after this
fixed text). -/
def printResults (compile : String → Option (String → Bool))
    (results : List (String × List String)) (hostsFlag fqdnFlag : Bool)
    (filter : String) : Except String (List String) :=
  if filter = "" then Except.ok (renderWith results hostsFlag fqdnFlag (fun _ => true))
  else
    match compile filter with
    | none => Except.error ("Invalid regex pattern")
    | some re => Except.ok (renderWith results hostsFlag fqdnFlag (fun h => re h))

/-- The lines a `printResults` outcome puts on standard output (a fatal
error prints no result line). -/
def linesOf : Except String (List String) → List String
  | Except.ok l => l
  | Except.error _ => []

def invalidParamsMsg : String := "Invalid parameters. Please provide either -c or -a"

structure RunResult where
  fetched : List String
  traced : List String
  outcome : Except String (List String)

/-- The ASN branch of the Action: for each ASN, `searchASN`, then for each
returned range a `searchCIDR` merged into the shared `results` map. -/
def asnBranch (env : Env) (asns : List String) :
    (List String × List String) × List (String × List String) :=
  asns.foldl
    (fun st a =>
      let r := searchASN env a
      let inner := r.ranges.foldl
        (fun st2 c =>
          let rc := searchCIDR env c
          (st2.1 ++ rc.1, mergeRes st2.2 rc.2))
        (([] : List String), st.2)
      ((st.1.1 ++ r.fetched ++ inner.1, st.1.2 ++ r.printed), inner.2))
    (([], []), [])

/-- The cli Action of `main`: the `--cidr` branch when that flag is
non-empty, else the `--asn` branch when that one is, else the invalid
parameters error (surfaced by `app.Run` into `log.Fatal`, a non-zero
exit). -/
def runAction (env : Env) (cidr asn : String) (hostsFlag fqdnFlag : Bool)
    (filter : String) : RunResult :=
  if cidr = "" then
    if asn = "" then ⟨[], [], Except.error invalidParamsMsg⟩
    else
      let st := asnBranch env (splitComma asn)
      ⟨st.1.1, st.1.2, printResults env.compile st.2 hostsFlag fqdnFlag filter⟩
  else
    let parts := (splitComma cidr).map (searchCIDR env)
    ⟨(parts.map Prod.fst).flatten, [],
      printResults env.compile (mergeAll (parts.map Prod.snd)) hostsFlag fqdnFlag filter⟩

/-- Parsing helper for the round-trip property: split a character list
around the first occurrence of the two-character separator `": "`
(`none` when the separator does not occur). -/
def breakOnSep : List Char → Option (List Char × List Char)
  | [] => none
  | c :: rest =>
    if c = ':' ∧ rest.head? = some ' ' then some ([], rest.tail)
    else
      match breakOnSep rest with
      | none => none
      | some pr => some (c :: pr.1, pr.2)

/-- Re-parse one default-mode output line: the hostname is everything
before the first `": "`, the IP list is the remainder split on spaces
(a line without the separator parses as a bare hostname). -/
def parseLine (line : String) : String × List String :=
  match breakOnSep line.data with
  | some pr => (String.mk pr.1, (splitCh ' ' pr.2).map String.mk)
  | none => (line, [])

/-- An environment whose every fetch fails with a transport error. -/
def envT : Env :=
  ⟨fun _ => FetchOutcome.transportError, fun _ => none, fun _ => none, fun _ => none⟩

/-- An environment where every page loads with status 200 (body = URL) and
the ASN prefix table of `AS1` holds exactly `p1`, that of every other page
exactly `p2`. -/
def envC : Env :=
  ⟨fun u => FetchOutcome.response 200 u, fun _ => none,
   fun b => if b = "https://bgp.he.net/AS1" then some ["p1"] else some ["p2"],
   fun _ => none⟩

/-- An environment where the `AS2` lookup answers HTTP 500 while every
other page loads with status 200, its ASN prefix table holding one entry
named after the page body (= its URL). -/
def envB : Env :=
  ⟨fun u =>
      if u = "https://bgp.he.net/AS2" then FetchOutcome.response 500 ("")
      else FetchOutcome.response 200 u,
   fun _ => none, fun b => some [b], fun _ => none⟩

theorem mem_insertDedup (ips : List String) (v v₀ : String) :
    v ∈ (if v₀ ∈ ips then ips else ips ++ [v₀]) ↔ v = v₀ ∨ v ∈ ips := by
  by_cases h : v₀ ∈ ips
  · simp only [if_pos h]
    constructor
    · exact fun hv => Or.inr hv
    · rintro (rfl | hv)
      · exact h
      · exact hv
  · simp [if_neg h, List.mem_append, or_comm]

theorem mem_lookupIPs_addVal (m : List (String × List String)) (k₀ v₀ k v : String) :
    v ∈ lookupIPs (addVal m k₀ v₀) k ↔ (k = k₀ ∧ v = v₀) ∨ v ∈ lookupIPs m k := by
  induction m with
  | nil =>
    by_cases hk : k₀ = k
    · subst hk
      simp [addVal, lookupIPs]
    · have hk' : ¬k = k₀ := fun h => hk h.symm
      simp [addVal, lookupIPs, hk, hk']
  | cons head rest ih =>
    obtain ⟨k', ips⟩ := head
    by_cases h1 : k' = k₀
    · subst h1
      by_cases h2 : k' = k
      · subst h2
        simp [addVal, lookupIPs, mem_insertDedup]
      · have h2' : ¬k = k' := fun h => h2 h.symm
        simp [addVal, lookupIPs, h2, h2']
    · by_cases h2 : k' = k
      · subst h2
        simp [addVal, lookupIPs, h1]
      · simp [addVal, lookupIPs, h1, h2, ih]

theorem mem_lookupIPs_addVals (vs : List String) (m : List (String × List String))
    (k₀ k v : String) :
    v ∈ lookupIPs (vs.foldl (fun a ip => addVal a k₀ ip) m) k ↔
      (k = k₀ ∧ v ∈ vs) ∨ v ∈ lookupIPs m k := by
  induction vs generalizing m with
  | nil => simp
  | cons w ws ih =>
    simp only [List.foldl_cons, ih, mem_lookupIPs_addVal, List.mem_cons]
    tauto

theorem mem_lookupIPs_mergeRes (res : List (String × List String))
    (m : List (String × List String)) (k v : String) :
    v ∈ lookupIPs (mergeRes m res) k ↔
      (∃ kv ∈ res, k = kv.1 ∧ v ∈ kv.2) ∨ v ∈ lookupIPs m k := by
  induction res generalizing m with
  | nil => simp [mergeRes]
  | cons kv res' ih =>
    simp only [mergeRes, List.foldl_cons] at *
    simp only [ih, mem_lookupIPs_addVals, List.mem_cons]
    constructor
    · rintro (⟨e, he, h⟩ | (h | h))
      · exact Or.inl ⟨e, Or.inr he, h⟩
      · exact Or.inl ⟨kv, Or.inl rfl, h⟩
      · exact Or.inr h
    · rintro (⟨e, (rfl | he), h⟩ | h)
      · exact Or.inr (Or.inl h)
      · exact Or.inl ⟨e, he, h⟩
      · exact Or.inr (Or.inr h)

theorem mem_lookupIPs_foldl_mergeRes (parts : List (List (String × List String)))
    (m : List (String × List String)) (k v : String) :
    v ∈ lookupIPs (parts.foldl mergeRes m) k ↔
      (∃ res ∈ parts, ∃ kv ∈ res, k = kv.1 ∧ v ∈ kv.2) ∨ v ∈ lookupIPs m k := by
  induction parts generalizing m with
  | nil => simp
  | cons res parts' ih =>
    simp only [List.foldl_cons, ih, mem_lookupIPs_mergeRes, List.mem_cons]
    constructor
    · rintro (⟨r, hr, h⟩ | (h | h))
      · exact Or.inl ⟨r, Or.inr hr, h⟩
      · exact Or.inl ⟨res, Or.inl rfl, h⟩
      · exact Or.inr h
    · rintro (⟨r, (rfl | hr), h⟩ | h)
      · exact Or.inr (Or.inl h)
      · exact Or.inl ⟨r, hr, h⟩
      · exact Or.inr (Or.inr h)

theorem mem_lookupIPs_mergeAll (parts : List (List (String × List String))) (k v : String) :
    v ∈ lookupIPs (mergeAll parts) k ↔ ∃ res ∈ parts, ∃ kv ∈ res, k = kv.1 ∧ v ∈ kv.2 := by
  simp [mergeAll, mem_lookupIPs_foldl_mergeRes, lookupIPs]

/-- C2: aggregating two permuted sequences of partial indexes with the merge
loop yields the same hostname-to-IP-set mapping, and repeating a partial
changes nothing: per-hostname set contents are order-independent and
idempotent under merging. -/
theorem mergeAll_perm_invariant_and_idempotent :
    (∀ parts₁ parts₂ : List (List (String × List String)), parts₁.Perm parts₂ →
      ∀ h : String, (lookupIPs (mergeAll parts₁) h).toFinset = (lookupIPs (mergeAll parts₂) h).toFinset)
    ∧ (∀ (part : List (String × List String)) (parts : List (List (String × List String)))
        (h : String),
        (lookupIPs (mergeAll (part :: part :: parts)) h).toFinset =
          (lookupIPs (mergeAll (part :: parts)) h).toFinset) := by
  constructor
  · intro parts₁ parts₂ hp h
    ext v
    simp only [List.mem_toFinset, mem_lookupIPs_mergeAll]
    constructor
    · rintro ⟨res, hres, hrest⟩
      exact ⟨res, hp.mem_iff.mp hres, hrest⟩
    · rintro ⟨res, hres, hrest⟩
      exact ⟨res, hp.mem_iff.mpr hres, hrest⟩
  · intro part parts h
    ext v
    simp only [List.mem_toFinset, mem_lookupIPs_mergeAll, List.mem_cons]
    constructor
    · rintro ⟨res, (rfl | rfl | hres), hrest⟩
      · exact ⟨res, Or.inl rfl, hrest⟩
      · exact ⟨res, Or.inl rfl, hrest⟩
      · exact ⟨res, Or.inr hres, hrest⟩
    · rintro ⟨res, (rfl | hres), hrest⟩
      · exact ⟨res, Or.inl rfl, hrest⟩
      · exact ⟨res, Or.inr (Or.inr hres), hrest⟩

/-- Witness for C2 at a concrete pair of permuted sequences. -/
theorem mergeAll_perm_invariant_witness :
    (lookupIPs (mergeAll [[("h", ["a"])], [("h", ["b"])]]) "h").toFinset =
      (lookupIPs (mergeAll [[("h", ["b"])], [("h", ["a"])]]) "h").toFinset :=
  mergeAll_perm_invariant_and_idempotent.1 [[("h", ["a"])], [("h", ["b"])]]
    [[("h", ["b"])], [("h", ["a"])]] (by decide) "h"

theorem vals_cons (k : String) (ips : List String) (rest : List (String × List String)) :
    vals ((k, ips) :: rest) = ips ++ vals rest := rfl

theorem mem_vals_addVal (m : List (String × List String)) (k v x : String) :
    x ∈ vals (addVal m k v) ↔ x = v ∨ x ∈ vals m := by
  induction m with
  | nil => simp [addVal, vals]
  | cons head rest ih =>
    obtain ⟨k', ips⟩ := head
    by_cases h : k' = k
    · subst h
      simp [addVal, vals_cons, mem_insertDedup]
      tauto
    · simp [addVal, h, vals_cons, ih]
      tauto

theorem mem_vals_invFold (ips : List String) (m : List (String × List String))
    (hn x : String) :
    x ∈ vals (ips.foldl (fun a ip => addVal a ip hn) m) ↔
      (ips ≠ [] ∧ x = hn) ∨ x ∈ vals m := by
  induction ips generalizing m with
  | nil => simp
  | cons i is ih =>
    simp only [List.foldl_cons, ih, mem_vals_addVal]
    have hc : (i :: is) ≠ ([] : List String) := List.cons_ne_nil i is
    tauto

theorem mem_vals_hostsIndex_aux (results : List (String × List String))
    (acc : List (String × List String)) (p : String → Bool) (x : String) :
    x ∈ vals (results.foldl
        (fun a kv => if p kv.1 then kv.2.foldl (fun a2 ip => addVal a2 ip kv.1) a else a) acc) ↔
      (∃ kv ∈ results, p kv.1 = true ∧ x = kv.1 ∧ kv.2 ≠ []) ∨ x ∈ vals acc := by
  induction results generalizing acc with
  | nil => simp
  | cons kv rest ih =>
    by_cases hp : p kv.1 = true
    · simp only [List.foldl_cons, if_pos hp, ih, mem_vals_invFold, List.mem_cons]
      constructor
      · rintro (⟨e, he, hpe, hx, hne⟩ | (⟨hne, rfl⟩ | hx))
        · exact Or.inl ⟨e, Or.inr he, hpe, hx, hne⟩
        · exact Or.inl ⟨kv, Or.inl rfl, hp, rfl, hne⟩
        · exact Or.inr hx
      · rintro (⟨e, (rfl | he), hpe, hx, hne⟩ | hx)
        · exact Or.inr (Or.inl ⟨hne, hx⟩)
        · exact Or.inl ⟨e, he, hpe, hx, hne⟩
        · exact Or.inr (Or.inr hx)
    · simp only [List.foldl_cons, if_neg hp, ih, List.mem_cons]
      constructor
      · rintro (⟨e, he, hpe, hx, hne⟩ | hx)
        · exact Or.inl ⟨e, Or.inr he, hpe, hx, hne⟩
        · exact Or.inr hx
      · rintro (⟨e, (rfl | he), hpe, hx, hne⟩ | hx)
        · exact absurd hpe hp
        · exact Or.inl ⟨e, he, hpe, hx, hne⟩
        · exact Or.inr hx

theorem mem_vals_hostsIndex (results : List (String × List String)) (p : String → Bool)
    (x : String) :
    x ∈ vals (hostsIndex results p) ↔
      ∃ kv ∈ results, p kv.1 = true ∧ x = kv.1 ∧ kv.2 ≠ [] := by
  simp only [hostsIndex, mem_vals_hostsIndex_aux]
  simp [vals]

theorem mem_lookupIPs_invFold (ips : List String) (m : List (String × List String))
    (hn k v : String) :
    v ∈ lookupIPs (ips.foldl (fun a ip => addVal a ip hn) m) k ↔
      (v = hn ∧ k ∈ ips) ∨ v ∈ lookupIPs m k := by
  induction ips generalizing m with
  | nil => simp
  | cons i is ih =>
    simp only [List.foldl_cons, ih, mem_lookupIPs_addVal, List.mem_cons]
    tauto

theorem mem_lookupIPs_hostsIndex_aux (results : List (String × List String))
    (acc : List (String × List String)) (p : String → Bool) (k v : String) :
    v ∈ lookupIPs (results.foldl
        (fun a kv => if p kv.1 then kv.2.foldl (fun a2 ip => addVal a2 ip kv.1) a else a) acc) k ↔
      (∃ kv ∈ results, p kv.1 = true ∧ v = kv.1 ∧ k ∈ kv.2) ∨ v ∈ lookupIPs acc k := by
  induction results generalizing acc with
  | nil => simp
  | cons kv rest ih =>
    by_cases hp : p kv.1 = true
    · simp only [List.foldl_cons, if_pos hp, ih, mem_lookupIPs_invFold, List.mem_cons]
      constructor
      · rintro (⟨e, he, hpe, hv, hk⟩ | (⟨rfl, hk⟩ | hv))
        · exact Or.inl ⟨e, Or.inr he, hpe, hv, hk⟩
        · exact Or.inl ⟨kv, Or.inl rfl, hp, rfl, hk⟩
        · exact Or.inr hv
      · rintro (⟨e, (rfl | he), hpe, hv, hk⟩ | hv)
        · exact Or.inr (Or.inl ⟨hv, hk⟩)
        · exact Or.inl ⟨e, he, hpe, hv, hk⟩
        · exact Or.inr (Or.inr hv)
    · simp only [List.foldl_cons, if_neg hp, ih, List.mem_cons]
      constructor
      · rintro (⟨e, he, hpe, hv, hk⟩ | hv)
        · exact Or.inl ⟨e, Or.inr he, hpe, hv, hk⟩
        · exact Or.inr hv
      · rintro (⟨e, (rfl | he), hpe, hv, hk⟩ | hv)
        · exact absurd hpe hp
        · exact Or.inl ⟨e, he, hpe, hv, hk⟩
        · exact Or.inr hv

theorem mem_lookupIPs_hostsIndex (results : List (String × List String)) (p : String → Bool)
    (k v : String) :
    v ∈ lookupIPs (hostsIndex results p) k ↔
      ∃ kv ∈ results, p kv.1 = true ∧ v = kv.1 ∧ k ∈ kv.2 := by
  simp [hostsIndex, mem_lookupIPs_hostsIndex_aux, lookupIPs]

theorem lookupIPs_mem_exists (m : List (String × List String)) (k v : String) :
    v ∈ lookupIPs m k → ∃ e ∈ m, e.1 = k ∧ v ∈ e.2 := by
  induction m with
  | nil => simp [lookupIPs]
  | cons head rest ih =>
    obtain ⟨k', ips⟩ := head
    by_cases h : k' = k
    · subst h
      simp only [lookupIPs, if_pos rfl]
      exact fun hv => ⟨(k', ips), List.mem_cons_self _ _, rfl, hv⟩
    · simp only [lookupIPs, if_neg h]
      intro hv
      obtain ⟨e, he, hek, hev⟩ := ih hv
      exact ⟨e, List.mem_cons_of_mem _ he, hek, hev⟩

theorem outputHostnames_hosts (results : List (String × List String)) (fqdnFlag : Bool)
    (p : String → Bool) :
    outputHostnames results true fqdnFlag p = vals (hostsIndex results p) := rfl

theorem outputHostnames_list (results : List (String × List String)) (fqdnFlag : Bool)
    (p : String → Bool) :
    outputHostnames results false fqdnFlag p = (keptEntries results p).map Prod.fst := rfl

/-- C3: for every index whose hostnames all carry at least one IP (an
invariant of every index the merge loop builds), a hostname of the index
occurs in the rendered output of any mode exactly when the compiled filter
matches it, and with no filter every hostname of the index occurs. -/
theorem filter_hostnames_correct :
    ∀ (results : List (String × List String)) (hostsFlag fqdnFlag : Bool)
      (re : String → Bool) (hn : String),
    (∃ kv ∈ results, kv.1 = hn) →
    (∀ kv ∈ results, kv.2 ≠ []) →
    ((hn ∈ outputHostnames results hostsFlag fqdnFlag re ↔ re hn = true)
      ∧ hn ∈ outputHostnames results hostsFlag fqdnFlag (fun _ => true)) := by
  intro results hostsFlag fqdnFlag re hn hmem hne
  obtain ⟨kv₀, hkv₀, hk₀⟩ := hmem
  cases hostsFlag with
  | true =>
    rw [outputHostnames_hosts, outputHostnames_hosts]
    constructor
    · rw [mem_vals_hostsIndex]
      constructor
      · rintro ⟨kv, hkv, hp, heq, _⟩
        rw [heq]
        exact hp
      · intro hre
        exact ⟨kv₀, hkv₀, by rw [hk₀]; exact hre, hk₀.symm, hne kv₀ hkv₀⟩
    · exact (mem_vals_hostsIndex results (fun _ => true) hn).mpr
        ⟨kv₀, hkv₀, rfl, hk₀.symm, hne kv₀ hkv₀⟩
  | false =>
    rw [outputHostnames_list, outputHostnames_list]
    constructor
    · constructor
      · intro hmm
        obtain ⟨kv, hkv, heq⟩ := List.mem_map.mp hmm
        have h2 := List.mem_filter.mp hkv
        rw [← heq]
        exact h2.2
      · intro hre
        exact List.mem_map.mpr
          ⟨kv₀, List.mem_filter.mpr ⟨hkv₀, by rw [hk₀]; exact hre⟩, hk₀⟩
    · exact List.mem_map.mpr ⟨kv₀, List.mem_filter.mpr ⟨hkv₀, rfl⟩, hk₀⟩

/-- Witness for C3 at a concrete index, matcher and hostname. -/
theorem filter_hostnames_correct_witness :
    (("ok.example" ∈ outputHostnames [("ok.example", ["1.1.1.1"])] false false
        (fun s => s == "ok.example") ↔ (fun s => s == "ok.example") "ok.example" = true)
      ∧ "ok.example" ∈ outputHostnames [("ok.example", ["1.1.1.1"])] false false
          (fun _ => true)) :=
  filter_hostnames_correct [("ok.example", ["1.1.1.1"])] false false
    (fun s => s == "ok.example") "ok.example" (by decide) (by decide)

/-- C4: every (hostname, ip) pair of the filtered index yields a hosts-mode
line keyed by that ip whose hostname list holds that hostname, and every
hostname on a hosts-mode line is a hostname of the filtered index. -/
theorem hosts_mode_inversion :
    ∀ (results : List (String × List String)) (p : String → Bool) (hn ip : String)
      (ips : List String),
    ((hn, ips) ∈ keptEntries results p → ip ∈ ips →
      ∃ e ∈ hostsIndex results p, e.1 = ip ∧ hn ∈ e.2)
    ∧ (∀ e ∈ hostsIndex results p, hn ∈ e.2 → ∃ kv ∈ keptEntries results p, kv.1 = hn) := by
  intro results p hn ip ips
  constructor
  · intro hmem hip
    have h1 := List.mem_filter.mp hmem
    have hl : hn ∈ lookupIPs (hostsIndex results p) ip :=
      (mem_lookupIPs_hostsIndex results p ip hn).mpr ⟨(hn, ips), h1.1, h1.2, rfl, hip⟩
    exact lookupIPs_mem_exists _ _ _ hl
  · intro e he hhn
    have hv : hn ∈ vals (hostsIndex results p) := List.mem_flatMap.mpr ⟨e, he, hhn⟩
    obtain ⟨kv, hkv, hp, heq, _⟩ := (mem_vals_hostsIndex results p hn).mp hv
    exact ⟨kv, List.mem_filter.mpr ⟨hkv, hp⟩, heq.symm⟩

/-- Witness for C4 at a concrete filtered index and pair. -/
theorem hosts_mode_inversion_witness :
    ∃ e ∈ hostsIndex [("h1", ["1.1.1.1"])] (fun _ => true), e.1 = "1.1.1.1" ∧ "h1" ∈ e.2 :=
  (hosts_mode_inversion [("h1", ["1.1.1.1"])] (fun _ => true) "h1" "1.1.1.1"
    ["1.1.1.1"]).1 (by decide) (by decide)

theorem splitCh_append_of_no_sep (sep : Char) (piece l : List Char)
    (h : ∀ c ∈ piece, c ≠ sep) :
    splitCh sep (piece ++ l) = (splitCh sep l).modifyHead (fun t => piece ++ t) := by
  induction piece with
  | nil =>
    cases hs : splitCh sep l with
    | nil => simp [List.modifyHead, hs]
    | cons a t => simp [List.modifyHead, hs]
  | cons c cs ih =>
    have hc : c ≠ sep := h c (List.mem_cons_self c cs)
    have ih' := ih (fun x hx => h x (List.mem_cons_of_mem c hx))
    have hstep : splitCh sep ((c :: cs) ++ l)
        = (splitCh sep (cs ++ l)).modifyHead (fun t => c :: t) := by
      simp [splitCh, hc]
    rw [hstep, ih']
    cases splitCh sep l with
    | nil => simp [List.modifyHead]
    | cons a t => simp [List.modifyHead]

theorem splitCh_sep_append (sep : Char) (x r : List Char) (h : ∀ c ∈ x, c ≠ sep) :
    splitCh sep (x ++ sep :: r) = x :: splitCh sep r := by
  rw [splitCh_append_of_no_sep sep x _ h]
  simp [splitCh, List.modifyHead]

theorem splitCh_strJoin_data (ips : List String) (hne : ips ≠ [])
    (hsp : ∀ ip ∈ ips, ∀ c ∈ ip.data, c ≠ ' ') :
    splitCh ' ' (strJoin (" ") ips).data = ips.map String.data := by
  induction ips with
  | nil => exact absurd rfl hne
  | cons x xs ih =>
    cases xs with
    | nil =>
      have hx := hsp x (List.mem_cons_self x [])
      have h1 := splitCh_append_of_no_sep ' ' x.data [] hx
      rw [List.append_nil] at h1
      simpa [strJoin, splitCh, List.modifyHead] using h1
    | cons y ys =>
      have hx := hsp x (List.mem_cons_self x (y :: ys))
      have hd : (x ++ " " ++ strJoin (" ") (y :: ys)).data
          = x.data ++ ' ' :: (strJoin (" ") (y :: ys)).data := by
        simp [String.data_append]
      have hj : strJoin (" ") (x :: y :: ys) = x ++ " " ++ strJoin (" ") (y :: ys) := rfl
      rw [hj, hd, splitCh_sep_append ' ' x.data _ hx,
        ih (List.cons_ne_nil y ys) (fun ip hip => hsp ip (List.mem_cons_of_mem x hip))]
      rfl

theorem breakOnSep_clean_append (h r : List Char) (hnone : breakOnSep h = none) :
    breakOnSep (h ++ ':' :: ' ' :: r) = some (h, r) := by
  induction h with
  | nil => simp [breakOnSep]
  | cons c h' ih =>
    have hcond : ¬(c = ':' ∧ h'.head? = some ' ') := by
      intro hc
      simp [breakOnSep, hc] at hnone
    have hh' : breakOnSep h' = none := by
      cases hb : breakOnSep h' with
      | none => rfl
      | some pr => simp [breakOnSep, hcond, hb] at hnone
    have hcond2 : ¬(c = ':' ∧ (h' ++ ':' :: ' ' :: r).head? = some ' ') := by
      cases h' with
      | nil =>
        rintro ⟨-, habs⟩
        simp at habs
      | cons d t =>
        rintro ⟨hc, hd⟩
        simp at hd
        exact hcond ⟨hc, by simp [hd]⟩
    simp only [List.cons_append, breakOnSep, List.append_eq, if_neg hcond2, ih hh']

theorem parseLine_render (hn : String) (ips : List String)
    (hsep : breakOnSep hn.data = none) (hne : ips ≠ [])
    (hsp : ∀ ip ∈ ips, ∀ c ∈ ip.data, c ≠ ' ') :
    parseLine (hn ++ ": " ++ strJoin (" ") ips) = (hn, ips) := by
  have hd : (hn ++ ": " ++ strJoin (" ") ips).data
      = hn.data ++ ':' :: ' ' :: (strJoin (" ") ips).data := by
    simp [String.data_append]
  have h1 : breakOnSep (hn ++ ": " ++ strJoin (" ") ips).data
      = some (hn.data, (strJoin (" ") ips).data) := by
    rw [hd]
    exact breakOnSep_clean_append _ _ hsep
  simp only [parseLine, h1]
  rw [splitCh_strJoin_data ips hne hsp, List.map_map]
  have hid : (String.mk ∘ String.data) = id := funext fun s => rfl
  rw [hid, List.map_id]

/-- C5 (amended): rendering the filtered index in default mode and
re-parsing each line (hostname before the first `": "`, IPs split on
spaces) recovers exactly the filtered hostname-to-IP mapping, provided no
hostname contains the substring `": "`, every IP set is non-empty and no
IP contains a space. -/
theorem default_mode_roundtrip :
    ∀ (results : List (String × List String)) (p : String → Bool),
    (∀ kv ∈ results, breakOnSep kv.1.data = none) →
    (∀ kv ∈ results, kv.2 ≠ []) →
    (∀ kv ∈ results, ∀ ip ∈ kv.2, ∀ c ∈ ip.data, c ≠ ' ') →
    (renderWith results false false p).map parseLine = keptEntries results p := by
  intro results p hsep hne hsp
  have hr : renderWith results false false p
      = (keptEntries results p).map (fun kv => kv.1 ++ ": " ++ strJoin (" ") kv.2) := by
    simp [renderWith]
  rw [hr, List.map_map]
  have hc : ∀ kv ∈ keptEntries results p,
      (parseLine ∘ fun kv => kv.1 ++ ": " ++ strJoin (" ") kv.2) kv = id kv := by
    intro kv hkv
    have hkv' : kv ∈ results := (List.mem_filter.mp hkv).1
    obtain ⟨a, b⟩ := kv
    exact parseLine_render a b (hsep _ hkv') (hne _ hkv') (hsp _ hkv')
  rw [List.map_congr_left hc, List.map_id]

/-- Counterexample to C5 as stated: for the index mapping the hostname
`"a: b"` to `{"c"}`, the rendered line `"a: b: c"` re-parses to
`("a", ["b:", "c"])`, not to the original mapping. -/
theorem default_mode_roundtrip_counterexample :
    (renderWith [("a: b", ["c"])] false false (fun _ => true)).map parseLine
        = [("a", ["b:", "c"])]
      ∧ ([("a", ["b:", "c"])] : List (String × List String)) ≠ [("a: b", ["c"])] := by
  constructor
  · decide
  · decide

/-- Witness for the amended C5 at a concrete index. -/
theorem default_mode_roundtrip_witness :
    (renderWith [("w.example", ["1.2.3.4", "5.6.7.8"])] false false
        (fun _ => true)).map parseLine
      = keptEntries [("w.example", ["1.2.3.4", "5.6.7.8"])] (fun _ => true) :=
  default_mode_roundtrip [("w.example", ["1.2.3.4", "5.6.7.8"])] (fun _ => true)
    (by decide) (by decide) (by decide)

/-- C6: a supplied filter pattern that fails to compile halts `printResults`
with the fatal message before anything is rendered: the outcome is the
error and zero result lines are printed, for every index and mode. -/
theorem invalid_filter_halts :
    ∀ (compile : String → Option (String → Bool)) (results : List (String × List String))
      (hostsFlag fqdnFlag : Bool) (filter : String),
    filter ≠ "" → compile filter = none →
    printResults compile results hostsFlag fqdnFlag filter
        = Except.error ("Invalid regex pattern")
    ∧ linesOf (printResults compile results hostsFlag fqdnFlag filter) = [] := by
  intro compile results hostsFlag fqdnFlag filter hf hcm
  have h : printResults compile results hostsFlag fqdnFlag filter
      = Except.error ("Invalid regex pattern") := by
    simp [printResults, hf, hcm]
  exact ⟨h, by rw [h]; rfl⟩

/-- Witness for C6 at a concrete failing pattern. -/
theorem invalid_filter_halts_witness :
    printResults (fun _ => none) [] false false ("(")
        = Except.error ("Invalid regex pattern")
    ∧ linesOf (printResults (fun _ => none) [] false false ("(")) = [] :=
  invalid_filter_halts (fun _ => none) [] false false ("(") (by decide) rfl

/-- C7: `searchCIDR` issues exactly one fetch, to the URL obtained from the
CIDR by replacing each `/` with `-`; on transport error, non-success
status or parse error it returns the empty index, from which the merge
loop takes nothing, surfacing no error. -/
theorem searchCIDR_contract :
    ∀ (env : Env) (cidr : String),
    (searchCIDR env cidr).1 = [cidrURL cidr]
    ∧ cidrURL cidr = robtexBase ++ String.mk (replCh '/' '-' cidr.data)
    ∧ (cidrFetchFails env cidr = true →
        (searchCIDR env cidr).2 = []
        ∧ ∀ acc, mergeRes acc (searchCIDR env cidr).2 = acc) := by
  intro env cidr
  refine ⟨rfl, rfl, ?_⟩
  intro hfail
  have h2 : (searchCIDR env cidr).2 = [] := by
    cases hfe : env.fetch (cidrURL cidr) with
    | transportError => simp [searchCIDR, hfe]
    | response code body =>
      by_cases hc : code = 200
      · cases hp : env.parseCidrDoc body with
        | none => simp [searchCIDR, hfe, hc, hp]
        | some anchors =>
          exfalso
          simp [cidrFetchFails, hfe, hc, hp] at hfail
      · simp [searchCIDR, hfe, hc]
  exact ⟨h2, fun acc => by rw [h2]; rfl⟩

/-- Witness for C7 at a concrete CIDR in the all-transport-errors
environment. -/
theorem searchCIDR_contract_witness :
    (searchCIDR envT ("10.0.0.0/8")).1 = [cidrURL ("10.0.0.0/8")]
    ∧ (searchCIDR envT ("10.0.0.0/8")).2 = [] :=
  ⟨(searchCIDR_contract envT ("10.0.0.0/8")).1,
   ((searchCIDR_contract envT ("10.0.0.0/8")).2.2 rfl).1⟩

theorem asnStep_fail (env : Env) (st : AsnState) (a : String)
    (h : asnSucceeds env a = false) :
    asnStep env st a = ⟨st.fetched ++ [bgpBase ++ a], st.printed, st.ranges⟩ := by
  cases hfe : env.fetch (bgpBase ++ a) with
  | transportError => simp [asnStep, hfe]
  | response code body =>
    by_cases hc : code = 200
    · cases hp : env.parseAsnDoc body with
      | none => simp [asnStep, hfe, hc, hp]
      | some rows =>
        exfalso
        simp [asnSucceeds, hfe, hc, hp] at h
    · simp [asnStep, hfe, hc]

theorem asnStep_succ (env : Env) (st : AsnState) (a : String)
    (h : asnSucceeds env a = true) :
    asnStep env st a = ⟨st.fetched ++ [bgpBase ++ a],
      st.printed ++ (st.ranges ++ asnPrefixes env a), st.ranges ++ asnPrefixes env a⟩ := by
  cases hfe : env.fetch (bgpBase ++ a) with
  | transportError => simp [asnSucceeds, hfe] at h
  | response code body =>
    by_cases hc : code = 200
    · cases hp : env.parseAsnDoc body with
      | none => simp [asnSucceeds, hfe, hc, hp] at h
      | some rows => simp [asnStep, asnPrefixes, hfe, hc, hp]
    · simp [asnSucceeds, hfe, hc] at h

theorem asnPrefixes_of_fail (env : Env) (a : String) (h : asnSucceeds env a = false) :
    asnPrefixes env a = [] := by
  cases hfe : env.fetch (bgpBase ++ a) with
  | transportError => simp [asnPrefixes, hfe]
  | response code body =>
    by_cases hc : code = 200
    · cases hp : env.parseAsnDoc body with
      | none => simp [asnPrefixes, hfe, hc, hp]
      | some rows =>
        exfalso
        simp [asnSucceeds, hfe, hc, hp] at h
    · simp [asnPrefixes, hfe, hc]

theorem asnFoldl_congr (env : Env) (l : List String) :
    ∀ s t : AsnState, s.printed = t.printed → s.ranges = t.ranges →
    (l.foldl (asnStep env) s).printed = (l.foldl (asnStep env) t).printed
    ∧ (l.foldl (asnStep env) s).ranges = (l.foldl (asnStep env) t).ranges := by
  induction l with
  | nil => exact fun s t hp hr => ⟨hp, hr⟩
  | cons a rest ih =>
    intro s t hp hr
    rw [List.foldl_cons, List.foldl_cons]
    cases hx : asnSucceeds env a with
    | true =>
      rw [asnStep_succ env s a hx, asnStep_succ env t a hx]
      exact ih _ _ (by rw [hp, hr]) (by rw [hr])
    | false =>
      rw [asnStep_fail env s a hx, asnStep_fail env t a hx]
      exact ih _ _ hp hr

/-- C8: a transport error, non-success status or parse error on one ASN
only drops that ASN from the batch: the returned ranges and printed trace
are those of the same batch without the failing ASN — the loop never
aborts early. -/
theorem asn_failure_skipped :
    ∀ (env : Env) (l₁ : List String) (a : String) (l₂ : List String),
    asnSucceeds env a = false →
    (searchASNList env (l₁ ++ a :: l₂)).ranges = (searchASNList env (l₁ ++ l₂)).ranges
    ∧ (searchASNList env (l₁ ++ a :: l₂)).printed
        = (searchASNList env (l₁ ++ l₂)).printed := by
  intro env l₁ a l₂ hfail
  unfold searchASNList
  rw [List.foldl_append, List.foldl_append, List.foldl_cons,
    asnStep_fail env (l₁.foldl (asnStep env) ⟨[], [], []⟩) a hfail]
  have h := asnFoldl_congr env l₂
    ⟨(l₁.foldl (asnStep env) ⟨[], [], []⟩).fetched ++ [bgpBase ++ a],
      (l₁.foldl (asnStep env) ⟨[], [], []⟩).printed,
      (l₁.foldl (asnStep env) ⟨[], [], []⟩).ranges⟩
    (l₁.foldl (asnStep env) ⟨[], [], []⟩) rfl rfl
  exact ⟨h.2, h.1⟩

/-- Witness for C8: the HTTP-500 ASN `AS2` contributes nothing and does not
stop `AS1`/`AS3` from being processed. -/
theorem asn_failure_skipped_witness :
    (searchASNList envB (["AS1"] ++ "AS2" :: ["AS3"])).ranges
        = (searchASNList envB (["AS1"] ++ ["AS3"])).ranges
    ∧ (searchASNList envB (["AS1"] ++ "AS2" :: ["AS3"])).printed
        = (searchASNList envB (["AS1"] ++ ["AS3"])).printed :=
  asn_failure_skipped envB ["AS1"] ("AS2") ["AS3"] (by decide)

theorem asnFoldl_printed_ranges (env : Env) (l : List String) :
    ∀ s : AsnState,
    (l.foldl (asnStep env) s).printed = s.printed ++ tracePrints env s.ranges l
    ∧ (l.foldl (asnStep env) s).ranges
        = s.ranges ++ (l.map (asnPrefixes env)).flatten := by
  induction l with
  | nil => intro s; simp [tracePrints]
  | cons a rest ih =>
    intro s
    rw [List.foldl_cons]
    cases hx : asnSucceeds env a with
    | true =>
      rw [asnStep_succ env s a hx]
      have h := ih ⟨s.fetched ++ [bgpBase ++ a],
        s.printed ++ (s.ranges ++ asnPrefixes env a), s.ranges ++ asnPrefixes env a⟩
      constructor
      · rw [h.1]
        simp [tracePrints, hx, List.append_assoc]
      · rw [h.2]
        simp [List.append_assoc]
    | false =>
      rw [asnStep_fail env s a hx]
      have h := ih ⟨s.fetched ++ [bgpBase ++ a], s.printed, s.ranges⟩
      constructor
      · rw [h.1]
        simp [tracePrints, hx]
      · rw [h.2]
        simp [asnPrefixes_of_fail env a hx]

theorem asnFoldl_ranges_in_printed (env : Env) (l : List String) :
    ∀ s : AsnState, (∀ x ∈ s.ranges, x ∈ s.printed) →
    ∀ x ∈ (l.foldl (asnStep env) s).ranges, x ∈ (l.foldl (asnStep env) s).printed := by
  induction l with
  | nil => exact fun s h => h
  | cons a rest ih =>
    intro s hs
    rw [List.foldl_cons]
    cases hx : asnSucceeds env a with
    | true =>
      rw [asnStep_succ env s a hx]
      apply ih
      intro x hxm
      exact List.mem_append_right _ hxm
    | false =>
      rw [asnStep_fail env s a hx]
      exact ih _ hs

/-- C9 (amended): during ASN resolution the progress trace printed to
standard output is, after each successfully fetched and parsed ASN, the
whole prefix list accumulated so far — prefixes of earlier ASNs are
re-printed after each later successful ASN rather than once on discovery.
Every discovered prefix does appear in the trace (at least once), and the
returned ranges are the concatenation of all ASNs' prefixes in discovery
order. -/
theorem searchASN_trace_characterization :
    ∀ (env : Env) (l : List String),
    (searchASNList env l).printed = tracePrints env [] l
    ∧ (searchASNList env l).ranges = (l.map (asnPrefixes env)).flatten
    ∧ ∀ pfx ∈ (searchASNList env l).ranges, pfx ∈ (searchASNList env l).printed := by
  intro env l
  have h := asnFoldl_printed_ranges env l ⟨[], [], []⟩
  refine ⟨by simpa [searchASNList] using h.1, by simpa [searchASNList] using h.2, ?_⟩
  exact asnFoldl_ranges_in_printed env l ⟨[], [], []⟩ (by simp)

/-- Witness for the amended C9: a discovered prefix occurs in the trace. -/
theorem searchASN_trace_witness :
    "p1" ∈ (searchASNList envC ["AS1", "AS2"]).printed :=
  (searchASN_trace_characterization envC ["AS1", "AS2"]).2.2 ("p1") (by decide)

/-- Counterexample to C9 as stated: with two successful ASNs, `searchASN`
prints three trace lines for two discovered prefixes — the prefix `p1`
found under `AS1` is printed again after `AS2`, not exactly once upon its
discovery. -/
theorem searchASN_trace_counterexample :
    (searchASN envC ("AS1,AS2")).ranges = ["p1", "p2"]
    ∧ (searchASN envC ("AS1,AS2")).printed = ["p1", "p1", "p2"]
    ∧ ((searchASN envC ("AS1,AS2")).printed).count ("p1") = 2
    ∧ ((searchASN envC ("AS1,AS2")).ranges).count ("p1") = 1 :=
  ⟨by decide, by decide, by decide, by decide⟩

theorem printResults_not_invalidParams
    (compile : String → Option (String → Bool)) (results : List (String × List String))
    (hostsFlag fqdnFlag : Bool) (filter : String) :
    printResults compile results hostsFlag fqdnFlag filter
      ≠ Except.error invalidParamsMsg := by
  by_cases hf : filter = ""
  · simp only [printResults, if_pos hf]
    intro h
    exact Except.noConfusion h
  · simp only [printResults, if_neg hf]
    cases hc : compile filter with
    | none =>
      intro h
      injection h with h'
      exact absurd h' (by decide)
    | some re =>
      intro h
      exact Except.noConfusion h

/-- Counterexample to C1 as stated: with both `--cidr` and `--asn`
non-empty the Action does not take the invalid-parameters error path — it
runs the CIDR branch and returns normally. -/
theorem action_both_flags_counterexample :
    (runAction envT ("1.2.3.0/24") ("AS1") false false ("")).outcome = Except.ok []
    ∧ (Except.ok ([] : List String) : Except String (List String))
        ≠ Except.error invalidParamsMsg := by
  refine ⟨rfl, ?_⟩
  intro hcon
  exact Except.noConfusion hcon

/-- C1 (amended): the invalid-parameters error (carried to a non-zero
exit) is reported exactly when both `--cidr` and `--asn` are empty; when
`--cidr` is non-empty the whole run is independent of the `--asn` value,
so at most one of the two input lists is ever accepted. -/
theorem action_error_iff :
    ∀ (env : Env) (cidr asn : String) (hostsFlag fqdnFlag : Bool) (filter : String),
    ((runAction env cidr asn hostsFlag fqdnFlag filter).outcome
        = Except.error invalidParamsMsg ↔ (cidr = "" ∧ asn = ""))
    ∧ (cidr ≠ "" → ∀ asn' : String,
        runAction env cidr asn hostsFlag fqdnFlag filter
          = runAction env cidr asn' hostsFlag fqdnFlag filter) := by
  intro env cidr asn hostsFlag fqdnFlag filter
  by_cases hc : cidr = ""
  · by_cases ha : asn = ""
    · subst hc
      subst ha
      constructor
      · simp [runAction]
      · intro hne
        exact absurd rfl hne
    · constructor
      · simp only [runAction, if_pos hc, if_neg ha]
        constructor
        · intro h
          exact absurd h (printResults_not_invalidParams _ _ _ _ _)
        · rintro ⟨-, habs⟩
          exact absurd habs ha
      · intro hne
        exact absurd hc hne
  · constructor
    · simp only [runAction, if_neg hc]
      constructor
      · intro h
        exact absurd h (printResults_not_invalidParams _ _ _ _ _)
      · rintro ⟨habs, -⟩
        exact absurd habs hc
    · intro _ asn'
      simp only [runAction, if_neg hc]

/-- Witness for the amended C1: with `--cidr` non-empty the `--asn` value
is irrelevant to the whole run. -/
theorem action_error_iff_witness :
    runAction envT ("1.2.3.0/24") ("AS1") false false ("")
      = runAction envT ("1.2.3.0/24") ("AS9") false false ("") :=
  (action_error_iff envT ("1.2.3.0/24") ("AS1") false false ("")).2 (by decide) ("AS9")

/-- C10: with both flags non-empty the Action processes only the CIDR
list: the run is identical to the one given only that `--cidr` value, it
never consults the ASN page parser, prints no ASN progress trace, and
reports no invalid-parameters error. -/
theorem both_flags_cidr_precedence :
    ∀ (env : Env) (pa' : String → Option (List String)) (cidr asn : String)
      (hostsFlag fqdnFlag : Bool) (filter : String),
    cidr ≠ "" → asn ≠ "" →
    (runAction env cidr asn hostsFlag fqdnFlag filter
        = runAction env cidr ("") hostsFlag fqdnFlag filter)
    ∧ (runAction ⟨env.fetch, env.parseCidrDoc, pa', env.compile⟩ cidr asn
          hostsFlag fqdnFlag filter
        = runAction env cidr asn hostsFlag fqdnFlag filter)
    ∧ (runAction env cidr asn hostsFlag fqdnFlag filter).traced = []
    ∧ (runAction env cidr asn hostsFlag fqdnFlag filter).outcome
        ≠ Except.error invalidParamsMsg := by
  intro env pa' cidr asn hostsFlag fqdnFlag filter hc ha
  refine ⟨?_, ?_, ?_, ?_⟩
  · simp only [runAction, if_neg hc]
  · have he : searchCIDR ⟨env.fetch, env.parseCidrDoc, pa', env.compile⟩ = searchCIDR env :=
      funext fun c => rfl
    simp only [runAction, if_neg hc, he]
  · simp only [runAction, if_neg hc]
  · simp only [runAction, if_neg hc]
    exact printResults_not_invalidParams _ _ _ _ _

/-- Witness for C10 at a concrete invocation. -/
theorem both_flags_cidr_precedence_witness :
    runAction envT ("2.0.0.0/8") ("AS7") false false ("")
      = runAction envT ("2.0.0.0/8") ("") false false ("") :=
  (both_flags_cidr_precedence envT (fun _ => none) ("2.0.0.0/8") ("AS7") false false ("")
    (by decide) (by decide)).1
